import Mathlib

/-!
Shallow embedding of the scikit-xray / nsls2 analysis toolkit
(danielballan/autocorr snapshot) and proofs about its specification.

Conventions used throughout:
* numpy float arrays are modelled as `List ℚ` (2-D arrays as `List (List ℚ)`);
  exact rational arithmetic stands in for IEEE doubles, which is faithful for
  the structural and error-path properties proved here.
* Python exceptions are modelled with `Except ExcKind`; a function that opens
  and writes a file returns `.ok (path, lines)`, so an `.error` result means
  the file system was not touched (in the real code every modelled `raise`
  happens before `open`).
* `os.path.exists` is modelled by a caller-supplied predicate `dirExists`.
-/

deriving instance DecidableEq for Except

/-- Kind of Python exception raised on a modelled error path. -/
inductive ExcKind where
  | valueError
  | indexError
  deriving DecidableEq, Repr

/-- One line of a written text file: literal text, or a numeric row as
written by np.savetxt (the decimal rendering of the numbers is abstracted;
the %.18e format used by np.savetxt round-trips float64 exactly). -/
inductive FLine where
  | text (s : String)
  | row (vals : List ℚ)
  deriving DecidableEq, Repr

/-- Description line written by save_output for Q data
(skxray/io/output.py lines 94-96). -/
def desQ : String :=
  "First column represents Q values (Angstroms) and second column represents intensities and if there is a third column it represents the error value of intensities"

/-- Description line written by save_output for two-theta data
(skxray/io/output.py lines 98-100). -/
def des2theta : String :=
  "First column represents two theta values (degrees) and  second column represents intensities and if there is a third column it represents the error value of intensities"

/-- Embedding of skxray.io.output._valid_inputs (output.py lines 222-266).
Checks the shared preconditions of save_output / save_gsas and returns the
output file path. -/
def _valid_inputs (tth intensity : List ℚ) (output_name ext : String)
    (err : Option (List ℚ)) (dir_path : Option String)
    (dirExists : String → Bool) : Except ExcKind String :=
  if tth.length ≠ intensity.length then .error .valueError
  else if ext = ".xye" ∧ err = none then .error .valueError
  else
    match dir_path with
    | none => .ok (output_name ++ ext)
    | some d =>
        if dirExists d then .ok (d ++ "/" ++ output_name ++ ext)
        else .error .valueError

/-- np.c_[a, b] for two equal-length 1-D arrays, as a list of rows.
(np.c_ raises on mismatched lengths; the claims only use equal lengths,
where zipWith agrees with it.) -/
def cols2 (a b : List ℚ) : List (List ℚ) :=
  List.zipWith (fun x y => [x, y]) a b

/-- np.c_[a, b, c] for three equal-length 1-D arrays, as a list of rows. -/
def cols3 (a b c : List ℚ) : List (List ℚ) :=
  List.zipWith (fun x r => x :: r) a (cols2 b c)

/-- The six header lines save_output writes before the numeric body
(output.py lines 105-115; the name line, the description blurb, the data
point count, the description + hash rule, with their blank lines). -/
def chiHeader (output_name : String) (npts : Nat) (des : String) : List FLine :=
  [ .text output_name,
    .text " This file contains integrated powder x-ray diffraction intensities.",
    .text "",
    .text ("Number of data points in the file " ++ toString npts ++ " "),
    .text (des ++ "#####################################################"),
    .text "" ]

/-- Embedding of skxray.io.output.save_output (output.py lines 48-120).
Validates the q_or_2theta flag, runs _valid_inputs, and only then opens the
file and writes the header followed by the np.savetxt body. -/
def save_output (tth intensity : List ℚ) (output_name q_or_2theta : String)
    (ext : String) (err : Option (List ℚ)) (dir_path : Option String)
    (dirExists : String → Bool) : Except ExcKind (String × List FLine) :=
  if q_or_2theta ∉ (["Q", "2theta"] : List String) then .error .valueError
  else
    let des := if q_or_2theta = "Q" then desQ else des2theta
    match _valid_inputs tth intensity output_name ext err dir_path dirExists with
    | .error e => .error e
    | .ok file_path =>
        let body := match err with
          | none => cols2 tth intensity
          | some e => cols3 tth intensity e
        .ok (file_path, chiHeader output_name tth.length des ++ body.map .row)

/-- Maximum entry of a list (np.max); total model, 0 on the empty array
(where np.max raises instead — no claim exercises that path). -/
def listMax : List ℚ → ℚ
  | [] => 0
  | h :: t => t.foldl max h

/-- Fuel-bounded computation of the scale exponent used by save_gsas:
the smallest k with maxI / 10^k ≤ 999999, i.e. -min(floor(log10(999999 /
maxI)), 0) (output.py lines 157-160).  The fuel only needs to exceed the
number of decimal digits of maxI. -/
def gsasScaleExp (maxI : ℚ) : Nat → Nat
  | 0 => 0
  | fuel + 1 => if maxI ≤ 999999 then 0 else gsasScaleExp (maxI / 10) fuel + 1

/-- The scale factor 10 ** int(min(floor(log10(999999/max(intensity))), 0))
of save_gsas. -/
def gsasScale (intensity : List ℚ) : ℚ :=
  1 / 10 ^ gsasScaleExp (listMax intensity) (listMax intensity).num.natAbs

/-- The centidegree constants of the gsas BANK line: tth[0]*100 and
(tth[-1] - tth[0]) / (len(tth) - 1) * 100 (output.py lines 174-175). -/
def gsasBankConsts (tth : List ℚ) : ℚ × ℚ :=
  (tth.headD 0 * 100,
   (tth.getLastD 0 - tth.headD 0) / ((tth.length : ℚ) - 1) * 100)

/-- The lines written for mode == 'std': title, BANK line, then the scaled
intensities in records of 10 (output.py lines 180-187).  The fixed-width
text rendering of each record is abstracted into a numeric row. -/
def gsasStdLines (output_name : String) (scale : ℚ) (tth intensity : List ℚ) :
    List FLine :=
  let consts := gsasBankConsts tth
  [.text ("Angular Profile: " ++ output_name),
   .text "BANK CONST STD",
   .row [1, (intensity.length : ℚ), ((intensity.length + 9) / 10 : Nat),
         consts.1, consts.2, 0, 0]] ++
  ((intensity.map (· * scale)).toChunks 10).map .row

/-- The lines written for mode == 'esd': intensity / scaled-error pairs in
records of 5 (output.py lines 188-197). -/
def gsasEsdLines (output_name : String) (scale : ℚ) (tth intensity err : List ℚ) :
    List FLine :=
  let consts := gsasBankConsts tth
  [.text ("Angular Profile: " ++ output_name),
   .text "BANK CONST ESD",
   .row [1, (intensity.length : ℚ), ((intensity.length + 4) / 5 : Nat),
         consts.1, consts.2, 0, 0]] ++
  ((List.zipWith (fun ii ee => [ii, ee * scale]) intensity err).toChunks 5).map
    (fun c => .row c.flatten)

/-- The lines written for mode == 'fxye': one scaled (tth, intensity, err)
triple per line (output.py lines 198-211). -/
def gsasFxyeLines (output_name : String) (scale : ℚ) (tth intensity err : List ℚ) :
    List FLine :=
  let consts := gsasBankConsts tth
  [.text ("Angular Profile: " ++ output_name),
   .text "BANK CONST FXYE",
   .row [1, (intensity.length : ℚ), (intensity.length : ℚ),
         consts.1, consts.2, 0, 0]] ++
  (cols3 (tth.map (· * scale)) (intensity.map (· * scale)) (err.map (· * scale))).map
    .row

/-- Embedding of skxray.io.output.save_gsas (output.py lines 123-219).
After _valid_inputs, the code sets mode = 'std' whenever err is None (line
177-178) and only raises ValueError for an unrecognised mode in the final
else branch (line 212-213), before the file is opened. -/
def save_gsas (tth intensity : List ℚ) (output_name ext : String)
    (mode : Option String) (err : Option (List ℚ)) (dir_path : Option String)
    (dirExists : String → Bool) : Except ExcKind (String × List FLine) :=
  match _valid_inputs tth intensity output_name ext err dir_path dirExists with
  | .error e => .error e
  | .ok file_path =>
      let scale := gsasScale intensity
      let mode1 := if err = none then some "std" else mode
      if mode1 = some "std" then
        .ok (file_path, gsasStdLines output_name scale tth intensity)
      else if mode1 = some "esd" then
        .ok (file_path, gsasEsdLines output_name scale tth intensity (err.getD []))
      else if mode1 = some "fxye" then
        .ok (file_path, gsasFxyeLines output_name scale tth intensity (err.getD []))
      else .error .valueError

/-- Parse the numeric body of a written file: drop the fixed header lines
and collect the numeric rows (np.loadtxt on the column body). -/
def parseBody (lines : List FLine) (headerLen : Nat) : List (List ℚ) :=
  (lines.drop headerLen).filterMap fun l =>
    match l with
    | .row vs => some vs
    | .text _ => none

/-- Resolve a (possibly negative) numpy element index against an axis of
length n: valid iff -n ≤ i < n, negative indices wrap around. -/
def resolveIdx (n : Nat) (i : ℤ) : Option Nat :=
  if 0 ≤ i ∧ i < n then some i.toNat
  else if -(n : ℤ) ≤ i ∧ i < 0 then some (i + n).toNat
  else none

/-- Resolve a python slice endpoint against an axis of length n
(negative endpoints wrap, everything clamps into [0, n]). -/
def resolveSliceIdx (n : Nat) (i : ℤ) : Nat :=
  if i < 0 then (max (i + n) 0).toNat else min i.toNat n

/-- The python slice l[a:b]. -/
def pySlice (l : List α) (a b : ℤ) : List α :=
  (l.take (resolveSliceIdx l.length b)).drop (resolveSliceIdx l.length a)

/-- Resolve a bad-pixel coordinate pair against the array: the row index
against the number of rows, the column index against that row's length. -/
def resolvePix (im : List (List ℚ)) (p : ℤ × ℤ) : Option (Nat × Nat) :=
  (resolveIdx im.length p.1).bind fun r =>
    (resolveIdx (im.getD r []).length p.2).map fun c => (r, c)

/-- The in-place assignment im[x, y] = 0 in image_reduction's bad-pixel
loop; an out-of-range index leaves the array unchanged because the
IndexError is caught and only printed (dpc.py lines 75-80). -/
def setPixZero (im : List (List ℚ)) (p : ℤ × ℤ) : List (List ℚ) :=
  match resolvePix im p with
  | none => im
  | some rc => im.set rc.1 ((im.getD rc.1 []).set rc.2 0)

/-- np.sum(im, axis=0): per-column sums. -/
def sumAxis0 (im : List (List ℚ)) : List ℚ := im.transpose.map (fun r => r.sum)

/-- np.sum(im, axis=1): per-row sums. -/
def sumAxis1 (im : List (List ℚ)) : List ℚ := im.map (fun r => r.sum)

/-- Embedding of skxray.dpc.image_reduction (dpc.py lines 48-92).  The
first component of the result is the caller's image array after the call
(the bad-pixel loop mutates it in place); the remaining components are
the returned xline / yline sums.  The ROI try/except is modelled by
python slice clamping, which never raises. -/
def image_reduction (im : List (List ℚ)) (roi : Option (ℤ × ℤ × ℤ × ℤ))
    (bad_pixels : Option (List (ℤ × ℤ))) :
    List (List ℚ) × List ℚ × List ℚ :=
  let im1 := match bad_pixels with
    | none => im
    | some bp => bp.foldl setPixZero im
  let im2 := match roi with
    | none => im1
    | some (x1, y1, x2, y2) =>
        (pySlice im1 x1 x2).map (fun row => pySlice row y1 y2)
  (im1, sumAxis0 im2, sumAxis1 im2)

/-- np.diff: consecutive differences. -/
def npdiff (l : List ℚ) : List ℚ := List.zipWith (fun a b => b - a) l l.tail

/-- Composite Simpson weights 1, 4, 2, ..., 4, 1 over n sample points. -/
def simpsonCoefs (n : Nat) : List ℚ :=
  (List.range n).map fun i =>
    if i = 0 ∨ i = n - 1 then 1 else if i % 2 = 1 then 4 else 2

/-- Simpson quadrature over an odd number (≥ 3) of uniformly spaced
samples; 0 on shorter input. -/
def simpsonOdd (y : List ℚ) (h : ℚ) : ℚ :=
  if y.length < 3 then 0
  else h / 3 * (List.zipWith (fun a b => a * b) y (simpsonCoefs y.length)).sum

/-- Trapezoid rule over uniformly spaced samples. -/
def trapezoid (y : List ℚ) (h : ℚ) : ℚ :=
  h * (List.zipWith (fun a b => a + b) y y.tail).sum / 2

/-- scipy.integrate.simps on uniformly spaced samples (the x arrays passed
by integrate_ROI are uniform by its spacing check); the default even='avg'
handling averages the Simpson + trapezoid splits dropping the last / first
interval when the sample count is even. -/
def simps (y x : List ℚ) : ℚ :=
  let h := x.getD 1 0 - x.getD 0 0
  let n := y.length
  if n < 2 then 0
  else if n % 2 = 1 then simpsonOdd y h
  else
    ((simpsonOdd y.dropLast h + trapezoid (y.drop (n - 2)) h) +
     (trapezoid (y.take 2) h + simpsonOdd y.tail h)) / 2

/-- numpy searchsorted (side='left') on a sorted array: the number of
entries strictly below v.  integrate_ROI only calls it after its
equal-spacing check has established sortedness, where bisection and
counting agree. -/
def searchsorted (l : List ℚ) (v : ℚ) : Nat := l.countP (fun e => decide (e < v))

/-- Embedding of nsls2.spectroscopy.integrate_ROI (spectroscopy.py lines
152-235): reverse a non-increasing x array, check equal spacing (raising
ValueError; with fewer than two x values the check hits x_value_array[1]
first and raises IndexError), validate the integration bounds in source
order (each raising ValueError), then sum scipy simps over the slices. -/
def integrate_core (x1 counts x_min x_max : List ℚ) : Except ExcKind ℚ :=
  if x1.length < 2 then .error .indexError
  else if ¬ ((npdiff x1).all
      (fun d => decide (d / (x1.getD 1 0 - x1.getD 0 0) = 1))) then
    .error .valueError
  else if x_min.length ≠ x_max.length then .error .valueError
  else if (x_min.zip x_max).any (fun p => decide (p.2 ≤ p.1)) then
    .error .valueError
  else if x_min.any (fun v => decide (v ≤ x1.getD 0 0)) then .error .valueError
  else if x_max.any (fun v => decide (x1.getLastD 0 ≤ v)) then
    .error .valueError
  else
    .ok ((((x_min.map (searchsorted x1)).zip
        (x_max.map (fun v => searchsorted x1 v + 1))).map
      (fun bt => simps ((counts.take bt.2).drop bt.1)
                       ((x1.take bt.2).drop bt.1))).sum)

def integrate_ROI (x_value_array counts x_min x_max : List ℚ) :
    Except ExcKind ℚ :=
  integrate_core
    (if (npdiff x_value_array).all (fun d => decide (0 < d)) then
       x_value_array
     else x_value_array.reverse)
    counts x_min x_max

/-- Modelled from the spec: skxray.core.utils.bin_edges_to_centers is
imported by xsvs.py but its module is not under src/; per the spec and the
xsvs test the centers are the midpoints of consecutive bin edges. -/
def bin_edges_to_centers (edges : List ℚ) : List ℚ :=
  List.zipWith (fun a b => (a + b) / 2) edges edges.tail

/-- np.arange(n) as rationals. -/
def arangeQ (n : Nat) : List ℚ :=
  (List.range n).map (fun k : Nat => (k : ℚ))

/-- Embedding of skxray.core.xsvs.normalize_bin_edges (xsvs.py lines
256-289): for every integration time i and ROI j the normalized edges are
arange(max_cts*2**i)/(mean_roi[j]*2**i) and the centers come from
bin_edges_to_centers.  mean_roi[j] is modelled with getD (the python code
would raise IndexError when num_rois exceeds len(mean_roi); the claims
assume enough entries). -/
def normalize_bin_edges (num_times num_rois : Nat) (mean_roi : List ℚ)
    (max_cts : Nat) : List (List (List ℚ)) × List (List (List ℚ)) :=
  let norm_bin_edges := (List.range num_times).map fun i =>
    (List.range num_rois).map fun j =>
      (arangeQ (max_cts * 2 ^ i)).map (fun v => v / (mean_roi.getD j 0 * 2 ^ i))
  (norm_bin_edges, norm_bin_edges.map (fun r => r.map bin_edges_to_centers))

/-- The bin index assigned to a value by np.histogram over a given edge
array: half-open bins [e_i, e_i+1) with the last bin closed on the right,
values outside the range discarded. -/
def npFindBin (edges : List ℚ) (v : ℚ) : Option Nat :=
  if edges.length < 2 then none
  else if v < edges.headD 0 ∨ edges.getLastD 0 < v then none
  else if v = edges.getLastD 0 then some (edges.length - 2)
  else some (edges.countP (fun e => decide (e ≤ v)) - 1)

/-- Modelled from the spec: the generic fill loop of the Histogram
accumulator (skxray.core.accumulators.histogram is not under src/; per the
spec it accumulates, for each sample, the sample weight into the bin the
sample falls in). -/
def accumFill [DecidableEq ι] (binOf : α → Option ι) (xw : List (α × ℚ)) :
    ι → ℚ :=
  xw.foldl
    (fun f p =>
      match binOf p.1 with
      | some i => Function.update f i (f i + p.2)
      | none => f)
    (fun _ => 0)

/-- The linspace bin edges the Histogram accumulator builds from a
[nbins, low, high] specification. -/
def histEdges (nbins : Nat) (low high : ℚ) : List ℚ :=
  (List.range (nbins + 1)).map fun k : Nat =>
    low + (high - low) * (k : ℚ) / (nbins : ℚ)

/-- Modelled from the spec: reading the 1-D Histogram accumulator's values
array after filling samples with per-sample weights. -/
def histogram_values (edges : List ℚ) (samples weights : List ℚ) : List ℚ :=
  (List.range (edges.length - 1)).map (accumFill (npFindBin edges) (samples.zip weights))

/-- The reference np.histogram counts over the same edges and weights
(translated from the reference semantics used by
test_histogram._1d_histogram_tester): each bin holds the sum of the
weights of the samples it contains. -/
def np_histogram (edges : List ℚ) (samples weights : List ℚ) : List ℚ :=
  (List.range (edges.length - 1)).map fun i =>
    (((samples.zip weights).filter (fun p => npFindBin edges p.1 = some i)).map
      Prod.snd).sum

/-- The 2-D bin of a sample pair: a sample is kept only when both of its
coordinates fall in range. -/
def npFindBin2 (ex ey : List ℚ) (p : ℚ × ℚ) : Option (Nat × Nat) :=
  match npFindBin ex p.1, npFindBin ey p.2 with
  | some i, some j => some (i, j)
  | _, _ => none

/-- Modelled from the spec: reading the 2-D Histogram accumulator's values
matrix after filling (x, y) samples with per-sample weights. -/
def histogram2d_values (ex ey : List ℚ) (xs ys ws : List ℚ) :
    List (List ℚ) :=
  let acc := accumFill (npFindBin2 ex ey) ((xs.zip ys).zip ws)
  (List.range (ex.length - 1)).map fun i =>
    (List.range (ey.length - 1)).map fun j => acc (i, j)

/-- The reference np.histogram2d counts over the same edges and weights
(translated from the reference semantics used by
test_histogram._2d_histogram_tester). -/
def np_histogram2d (ex ey : List ℚ) (xs ys ws : List ℚ) : List (List ℚ) :=
  (List.range (ex.length - 1)).map fun i =>
    (List.range (ey.length - 1)).map fun j =>
      ((((xs.zip ys).zip ws).filter
        (fun p => npFindBin2 ex ey p.1 = some (i, j))).map Prod.snd).sum

/-- The row/column dimensions of a 2-D array modelled as nested lists. -/
def dims (a : List (List α)) : List Nat := a.map List.length

/-- Elementwise combination of two 2-D arrays. -/
def zip2d (f : α → β → γ) (a : List (List α)) (b : List (List β)) :
    List (List γ) := List.zipWith (List.zipWith f) a b

/-- Modelled from the spec: the modulus projection stage of the CDI
reconstruction (skxray/cdi.py is not under src/).  Each entry's amplitude
is replaced by the measured diffraction amplitude; the rational surrogate
normalizes by the squared modulus, which has the same elementwise shape
behaviour as the complex normalization. -/
def pi_modulus (a : List (List (ℚ × ℚ))) (diff_v : List (List ℚ)) :
    List (List (ℚ × ℚ)) :=
  zip2d (fun z d =>
    if z = (0, 0) then (d, 0)
    else (d * z.1 / (z.1 ^ 2 + z.2 ^ 2), d * z.2 / (z.1 ^ 2 + z.2 ^ 2)))
    a diff_v

/-- Modelled from the spec: the support projection stage of the CDI
reconstruction; entries outside the support are zeroed. -/
def pi_support (a : List (List (ℚ × ℚ))) (sup : List (List ℚ)) :
    List (List (ℚ × ℚ)) :=
  zip2d (fun z s => if s = 0 then ((0 : ℚ), (0 : ℚ)) else z) a sup

/-- Modelled from the spec: the shrink-wrap support update stage; the new
support keeps the entries whose squared modulus clears a threshold. -/
def support_update (a : List (List (ℚ × ℚ))) (threshold : ℚ) :
    List (List ℚ) :=
  a.map (fun row => row.map (fun z =>
    if threshold ≤ z.1 ^ 2 + z.2 ^ 2 then (1 : ℚ) else 0))

/-- Modelled from the spec: the squared-difference convergence figure
tracked each iteration. -/
def cal_diff_sq (a b : List (List (ℚ × ℚ))) : ℚ :=
  ((zip2d (fun x y => (x.1 - y.1) ^ 2 + (x.2 - y.2) ^ 2) a b).map
    (fun r => r.sum)).sum

/-- One iteration of the fixed-iteration reconstruction loop: modulus
projection against the measured pattern, optional support update, support
projection. -/
def cdi_step (diff_v : List (List ℚ)) (sw_flag : Bool) (threshold : ℚ)
    (state : List (List (ℚ × ℚ)) × List (List ℚ)) :
    List (List (ℚ × ℚ)) × List (List ℚ) :=
  let b := pi_modulus state.1 diff_v
  let sup1 := if sw_flag then support_update b threshold else state.2
  (pi_support b sup1, sup1)

/-- The fixed-iteration loop of the reconstruction: run n passes of
cdi_step from a (field, support) state, collecting the per-iteration
convergence figures. -/
def cdi_loop (diff_v : List (List ℚ)) (sw_flag : Bool) (threshold : ℚ) :
    Nat → (List (List (ℚ × ℚ)) × List (List ℚ)) →
    (List (List (ℚ × ℚ)) × List (List ℚ)) × List ℚ
  | 0, st => (st, [])
  | n + 1, st =>
      let st1 := cdi_step diff_v sw_flag threshold st
      let rest := cdi_loop diff_v sw_flag threshold n st1
      (rest.1, cal_diff_sq st1.1 st.1 :: rest.2)

/-- Modelled from the spec: cdi_recon, the fixed-iteration phase-retrieval
loop (initial field = measured amplitudes times the initial phase field,
then n_iterations passes of modulus projection / support update / support
projection, with a convergence figure per iteration). -/
def cdi_recon (diff_v : List (List ℚ)) (init_phase : List (List (ℚ × ℚ)))
    (sup : List (List ℚ)) (sw_flag : Bool) (threshold : ℚ)
    (n_iterations : Nat) : List (List (ℚ × ℚ)) × List ℚ :=
  let init := zip2d (fun d p => (d * p.1, d * p.2)) diff_v init_phase
  let r := cdi_loop diff_v sw_flag threshold n_iterations (init, sup)
  (r.1.1, r.2)

/-- Whether the rectangle (col_coor, row_coor, col_val, row_val) covers the
detector cell (r, c): the half-open spans of the test arithmetic
(test_diff_roi_choice.py lines 72-75), clipping to the detector implicit
in r < d0, c < d1. -/
def rectCovers (rect : ℤ × ℤ × ℤ × ℤ) (r c : Nat) : Bool :=
  decide (rect.1 ≤ r) && decide ((r : ℤ) < rect.1 + rect.2.2.1) &&
  decide (rect.2.1 ≤ c) && decide ((c : ℤ) < rect.2.1 + rect.2.2.2)

/-- The label a detector cell ends with after the sequential rectangle
loop (ROI i+1 overwrites earlier labels on overlap). -/
def roiLabelAt (roi_data : List (ℤ × ℤ × ℤ × ℤ)) (r c : Nat) : Nat :=
  (roi_data.enum).foldl
    (fun acc p => if rectCovers p.2 r c then p.1 + 1 else acc) 0

/-- The flattened (raveled index, label) pairs of the labeled pixels. -/
def roiLabeledPixels (roi_data : List (ℤ × ℤ × ℤ × ℤ)) (d0 d1 : Nat) :
    List (Nat × Nat) :=
  (((List.range d0).map fun r => (List.range d1).map fun c =>
      (r * d1 + c, roiLabelAt roi_data r c)).flatten).filter
    (fun p => p.2 ≠ 0)

/-- Modelled from the spec: skxray.diff_roi_choice.roi_rectangles (not
under src/).  Per the spec's "ROI pixel-count sums" and its test, it
returns the labels of the labeled pixels, the per-ROI pixel counts of its
label assignment, and the raveled pixel indices. -/
def roi_rectangles (num_rois : Nat) (roi_data : List (ℤ × ℤ × ℤ × ℤ))
    (d0 d1 : Nat) : List Nat × List Nat × List Nat :=
  let pixels := roiLabeledPixels roi_data d0 d1
  let roi_inds := pixels.map Prod.snd
  let num_pixels := (List.range num_rois).map fun k =>
    (((List.range d0).map fun r => (List.range d1).map fun c =>
        roiLabelAt roi_data r c).flatten).count (k + 1)
  (roi_inds, num_pixels, pixels.map Prod.fst)

/-- The value of cell (r, c) of a 2-D array (0 outside the array). -/
def getPix (im : List (List ℚ)) (r c : Nat) : ℚ := (im.getD r []).getD c 0

/-- Whether the bad-pixel coordinate pair p targets exactly cell (r, c) of
im under numpy index resolution. -/
def hitsPix (im : List (List ℚ)) (p : ℤ × ℤ) (r c : Nat) : Bool :=
  decide (resolvePix im p = some (r, c))

/-- Whether a bad-pixel coordinate pair is in range for im (the
assignments image_reduction silently skips are exactly the invalid
ones). -/
def pixValid (im : List (List ℚ)) (p : ℤ × ℤ) : Bool :=
  (resolvePix im p).isSome

/-! Theorems about the embedded functions. -/

/-- C5: for every call to save_output in which the tth array and the
intensity array have different lengths, or in which q_or_2theta is neither
Q nor 2theta, a ValueError is raised and no output file is created (an
`.error` result of the embedding carries no written file; both raises
happen before the file is opened). -/
theorem save_output_invalid_raises (tth intensity : List ℚ)
    (output_name q ext : String) (err : Option (List ℚ))
    (dir_path : Option String) (dirExists : String → Bool)
    (h : tth.length ≠ intensity.length ∨ q ∉ (["Q", "2theta"] : List String)) :
    save_output tth intensity output_name q ext err dir_path dirExists =
      .error .valueError := by
  unfold save_output _valid_inputs
  rcases h with h | h
  · by_cases hq : q ∈ (["Q", "2theta"] : List String)
    · simp [hq, h]
    · simp [hq]
  · simp [h]

theorem save_output_invalid_raises_witness :
    (([0, 1] : List ℚ).length ≠ ([5] : List ℚ).length ∨
      "Q" ∉ (["Q", "2theta"] : List String)) ∧
    save_output [0, 1] [5] "f" "Q" ".chi" none none (fun _ => false) =
      .error .valueError :=
  ⟨Or.inl (by decide),
   save_output_invalid_raises [0, 1] [5] "f" "Q" ".chi" none none
     (fun _ => false) (Or.inl (by decide))⟩

/-- C4 counterexample: calling save_gsas with the non-enumerated mode
string "bogus" but err=None raises nothing and writes a file — the code
overrides mode to 'std' whenever err is None (output.py lines 177-178),
so the unsupported mode string is silently accepted. -/
theorem save_gsas_bogus_mode_accepted :
    (save_gsas [0, 1] [1, 1] "out" ".gsas" (some "bogus") none none
        (fun _ => false)).toOption.isSome = true ∧
    save_gsas [0, 1] [1, 1] "out" ".gsas" (some "bogus") none none
        (fun _ => false) ≠ .error .valueError := by
  constructor
  · decide
  · decide

/-- C4 amended: for every call to save_gsas with an err array supplied and
a mode argument that is not one of 'std', 'esd', 'fxye', a ValueError is
raised and no output file is written; with err=None the mode argument is
overridden to 'std' and a file is written regardless of it. -/
theorem save_gsas_invalid_mode_with_err_raises (tth intensity : List ℚ)
    (output_name ext : String) (mode : Option String) (e : List ℚ)
    (dir_path : Option String) (dirExists : String → Bool)
    (hm : mode ≠ some "std" ∧ mode ≠ some "esd" ∧ mode ≠ some "fxye") :
    save_gsas tth intensity output_name ext mode (some e) dir_path dirExists =
      .error .valueError := by
  obtain ⟨h1, h2, h3⟩ := hm
  unfold save_gsas _valid_inputs
  cases dir_path with
  | none => split_ifs <;> simp_all
  | some d => cases hd : dirExists d <;> split_ifs <;> simp_all

theorem save_gsas_invalid_mode_with_err_raises_witness :
    ((some "bogus" : Option String) ≠ some "std" ∧
      (some "bogus" : Option String) ≠ some "esd" ∧
      (some "bogus" : Option String) ≠ some "fxye") ∧
    save_gsas [0, 1] [1, 1] "out" ".gsas" (some "bogus") (some [1, 1]) none
        (fun _ => false) = .error .valueError :=
  ⟨by decide,
   save_gsas_invalid_mode_with_err_raises [0, 1] [1, 1] "out" ".gsas"
     (some "bogus") [1, 1] none (fun _ => false) (by decide)⟩

theorem cols2_columns (a b : List ℚ) (h : a.length = b.length) :
    (cols2 a b).map (fun r => r.getD 0 0) = a ∧
    (cols2 a b).map (fun r => r.getD 1 0) = b := by
  induction a generalizing b with
  | nil => cases b <;> simp_all [cols2]
  | cons x xs ih =>
      cases b with
      | nil => simp at h
      | cons y ys =>
          have := ih ys (by simpa using h)
          simp_all [cols2]

theorem cols3_columns (a b c : List ℚ) (hab : a.length = b.length)
    (hac : a.length = c.length) :
    (cols3 a b c).map (fun r => r.getD 0 0) = a ∧
    (cols3 a b c).map (fun r => r.getD 1 0) = b ∧
    (cols3 a b c).map (fun r => r.getD 2 0) = c := by
  induction a generalizing b c with
  | nil => cases b <;> cases c <;> simp_all [cols3, cols2]
  | cons x xs ih =>
      cases b with
      | nil => simp at hab
      | cons y ys =>
          cases c with
          | nil => simp at hac
          | cons z zs =>
              have := ih ys zs (by simpa using hab) (by simpa using hac)
              simp_all [cols3, cols2]

theorem parseBody_header_rows (a1 a2 a3 a4 a5 a6 : FLine)
    (rows : List (List ℚ)) :
    parseBody ([a1, a2, a3, a4, a5, a6] ++ rows.map FLine.row) 6 = rows := by
  have h : ([a1, a2, a3, a4, a5, a6] ++ rows.map FLine.row).drop 6 =
      rows.map FLine.row := by simp
  unfold parseBody
  rw [h]
  induction rows with
  | nil => rfl
  | cons r t ih => simpa using ih

/-- C9: writing equal-length tth and intensity arrays (and an optional
equal-length err array) with save_output produces a column file that
round-trips: the numeric rows after the six fixed header lines hold tth in
column 0, intensity in column 1 and, when err was given, err in column 2,
value for value. -/
theorem save_output_roundtrip (tth intensity : List ℚ)
    (err : Option (List ℚ)) (output_name q ext : String)
    (dirExists : String → Bool)
    (hq : q ∈ (["Q", "2theta"] : List String))
    (hlen : tth.length = intensity.length)
    (herr : match err with
            | none => ext ≠ ".xye"
            | some er => er.length = tth.length) :
    ∃ p L,
      save_output tth intensity output_name q ext err none dirExists =
        .ok (p, L) ∧
      (parseBody L 6).map (fun r => r.getD 0 0) = tth ∧
      (parseBody L 6).map (fun r => r.getD 1 0) = intensity ∧
      ∀ er, err = some er →
        (parseBody L 6).map (fun r => r.getD 2 0) = er := by
  cases err with
  | none =>
      have hvi : _valid_inputs tth intensity output_name ext none none
          dirExists = .ok (output_name ++ ext) := by
        unfold _valid_inputs
        simp_all
      obtain ⟨h0, h1⟩ := cols2_columns tth intensity hlen
      refine ⟨output_name ++ ext,
        chiHeader output_name tth.length
          (if q = "Q" then desQ else des2theta) ++
          (cols2 tth intensity).map FLine.row, ?_, ?_, ?_, ?_⟩
      · unfold save_output
        simp [hq, hvi]
      · simp only [chiHeader, parseBody_header_rows, h0]
      · simp only [chiHeader, parseBody_header_rows, h1]
      · intro er h
        cases h
  | some er =>
      have hvi : _valid_inputs tth intensity output_name ext (some er) none
          dirExists = .ok (output_name ++ ext) := by
        unfold _valid_inputs
        simp_all
      obtain ⟨h0, h1, h2⟩ := cols3_columns tth intensity er hlen
        (by simp_all)
      refine ⟨output_name ++ ext,
        chiHeader output_name tth.length
          (if q = "Q" then desQ else des2theta) ++
          (cols3 tth intensity er).map FLine.row, ?_, ?_, ?_, ?_⟩
      · unfold save_output
        simp [hq, hvi]
      · simp only [chiHeader, parseBody_header_rows, h0]
      · simp only [chiHeader, parseBody_header_rows, h1]
      · intro er1 h
        cases h
        simp only [chiHeader, parseBody_header_rows, h2]

theorem save_output_roundtrip_witness :
    ("Q" ∈ (["Q", "2theta"] : List String) ∧
      ([0, 1] : List ℚ).length = ([2, 3] : List ℚ).length ∧
      (".chi" : String) ≠ ".xye") ∧
    (∃ p L,
      save_output [0, 1] [2, 3] "f" "Q" ".chi" none none (fun _ => false) =
        .ok (p, L) ∧
      (parseBody L 6).map (fun r => r.getD 0 0) = [0, 1] ∧
      (parseBody L 6).map (fun r => r.getD 1 0) = [2, 3] ∧
      ∀ er, (none : Option (List ℚ)) = some er →
        (parseBody L 6).map (fun r => r.getD 2 0) = er) :=
  ⟨⟨by decide, by decide, by decide⟩,
   save_output_roundtrip [0, 1] [2, 3] none "f" "Q" ".chi" (fun _ => false)
     (by decide) (by decide) (by decide)⟩

theorem resolveIdx_lt (n : Nat) (i : ℤ) (j : Nat)
    (h : resolveIdx n i = some j) : j < n := by
  unfold resolveIdx at h
  split_ifs at h with h1 h2
  · simp only [Option.some.injEq] at h
    omega
  · simp only [Option.some.injEq] at h
    omega

theorem resolvePix_some (im : List (List ℚ)) (p : ℤ × ℤ) (r c : Nat)
    (h : resolvePix im p = some (r, c)) :
    resolveIdx im.length p.1 = some r ∧
    resolveIdx (im.getD r []).length p.2 = some c := by
  unfold resolvePix at h
  rcases h1 : resolveIdx im.length p.1 with _ | ri
  · rw [h1] at h
    simp at h
  · rw [h1] at h
    simp only [Option.some_bind] at h
    rcases h2 : resolveIdx (im.getD ri []).length p.2 with _ | ci
    · rw [h2] at h
      simp at h
    · rw [h2] at h
      simp at h
      obtain ⟨hr, hc⟩ := h
      subst hr
      subst hc
      exact ⟨rfl, h2⟩

theorem resolvePix_congr (im1 im2 : List (List ℚ)) (p : ℤ × ℤ)
    (hlen : im1.length = im2.length)
    (hrow : ∀ k, (im1.getD k []).length = (im2.getD k []).length) :
    resolvePix im1 p = resolvePix im2 p := by
  unfold resolvePix
  rw [hlen]
  cases resolveIdx im2.length p.1 with
  | none => rfl
  | some ri =>
      simp only [Option.some_bind]
      rw [hrow ri]

theorem setPixZero_of_none (im : List (List ℚ)) (p : ℤ × ℤ)
    (h : resolvePix im p = none) : setPixZero im p = im := by
  unfold setPixZero
  rw [h]

theorem setPixZero_of_some (im : List (List ℚ)) (p : ℤ × ℤ) (rc : Nat × Nat)
    (h : resolvePix im p = some rc) :
    setPixZero im p = im.set rc.1 ((im.getD rc.1 []).set rc.2 0) := by
  unfold setPixZero
  rw [h]

theorem setPixZero_length (im : List (List ℚ)) (p : ℤ × ℤ) :
    (setPixZero im p).length = im.length := by
  cases h : resolvePix im p with
  | none => rw [setPixZero_of_none im p h]
  | some rc =>
      rw [setPixZero_of_some im p rc h]
      simp

theorem setPixZero_rowlen (im : List (List ℚ)) (p : ℤ × ℤ) (r : Nat) :
    ((setPixZero im p).getD r []).length = (im.getD r []).length := by
  cases h : resolvePix im p with
  | none => rw [setPixZero_of_none im p h]
  | some rc =>
      obtain ⟨h1, h2⟩ := resolvePix_some im p rc.1 rc.2 (by simpa using h)
      have hlt : rc.1 < im.length := resolveIdx_lt _ _ _ h1
      rw [setPixZero_of_some im p rc h]
      by_cases hr : rc.1 = r
      · subst hr
        simp [List.getD_eq_getElem?_getD, List.getElem?_set_self hlt]
      · simp [List.getD_eq_getElem?_getD, List.getElem?_set_ne hr]

theorem setPixZero_getPix (im : List (List ℚ)) (p : ℤ × ℤ) (r c : Nat) :
    getPix (setPixZero im p) r c =
      if hitsPix im p r c then 0 else getPix im r c := by
  cases h : resolvePix im p with
  | none =>
      rw [setPixZero_of_none im p h]
      simp [hitsPix, h]
  | some rc =>
      obtain ⟨a, b⟩ := rc
      obtain ⟨h1, h2⟩ := resolvePix_some im p a b h
      have hlt : a < im.length := resolveIdx_lt _ _ _ h1
      have hclt : b < (im.getD a []).length := resolveIdx_lt _ _ _ h2
      rw [setPixZero_of_some im p (a, b) h]
      unfold getPix hitsPix
      rw [h]
      simp only [List.getD_eq_getElem?_getD] at hclt ⊢
      by_cases hr : a = r
      · subst hr
        by_cases hc : b = c
        · subst hc
          simp [List.getD_eq_getElem?_getD, List.getElem?_set_self hlt,
            List.getElem?_set_self hclt]
        · simp [List.getD_eq_getElem?_getD, List.getElem?_set_self hlt,
            List.getElem?_set_ne hc, hc]
      · simp [List.getD_eq_getElem?_getD, List.getElem?_set_ne hr, hr]

theorem foldl_setPixZero_length (bp : List (ℤ × ℤ)) (im : List (List ℚ)) :
    (bp.foldl setPixZero im).length = im.length := by
  induction bp generalizing im with
  | nil => rfl
  | cons p t ih => rw [List.foldl_cons, ih, setPixZero_length]

theorem foldl_setPixZero_rowlen (bp : List (ℤ × ℤ)) (im : List (List ℚ))
    (r : Nat) :
    ((bp.foldl setPixZero im).getD r []).length = (im.getD r []).length := by
  induction bp generalizing im with
  | nil => rfl
  | cons p t ih => rw [List.foldl_cons, ih, setPixZero_rowlen]

theorem resolvePix_setPixZero (im : List (List ℚ)) (p q : ℤ × ℤ) :
    resolvePix (setPixZero im p) q = resolvePix im q :=
  resolvePix_congr _ _ _ (setPixZero_length im p) (setPixZero_rowlen im p)

theorem foldl_setPixZero_getPix (bp : List (ℤ × ℤ)) (im : List (List ℚ))
    (r c : Nat) :
    getPix (bp.foldl setPixZero im) r c =
      if bp.any (fun p => hitsPix im p r c) then 0 else getPix im r c := by
  induction bp generalizing im with
  | nil => simp
  | cons p t ih =>
      rw [List.foldl_cons, ih, setPixZero_getPix]
      have hcongr : ∀ q : ℤ × ℤ,
          hitsPix (setPixZero im p) q r c = hitsPix im q r c := by
        intro q
        unfold hitsPix
        rw [resolvePix_setPixZero]
      simp only [hcongr, List.any_cons]
      by_cases h1 : hitsPix im p r c <;>
        by_cases h2 : t.any (fun q => hitsPix im q r c) <;>
          simp [h1, h2]

/-- C1 counterexample: image_reduction mutates the caller's image array in
place — called on the 1-by-1 image [[1]] with bad_pixels [(0, 0)], the
caller's array holds [[0]] after the call, not its original values. -/
theorem image_reduction_mutates_input_cex :
    (image_reduction [[1]] none (some [(0, 0)])).1 ≠ [[1]] := by decide

/-- C1 amended: image_reduction does mutate the caller's image (contrary
to the claim): after a call with a bad_pixels list the caller's array
holds 0 at exactly the cells some listed coordinate resolves to, and its
original value everywhere else (and _process likewise documents that it
modifies its accumulator arguments in place). -/
theorem image_reduction_mutation_exact (im : List (List ℚ))
    (roi : Option (ℤ × ℤ × ℤ × ℤ)) (bp : List (ℤ × ℤ)) (r c : Nat) :
    getPix (image_reduction im roi (some bp)).1 r c =
      if bp.any (fun p => hitsPix im p r c) then 0 else getPix im r c := by
  have h1 : (image_reduction im roi (some bp)).1 = bp.foldl setPixZero im := by
    unfold image_reduction
    cases roi with
    | none => rfl
    | some t => rfl
  rw [h1, foldl_setPixZero_getPix]

/-- C2 counterexample: with the out-of-range bad pixel (5, 5) on a 2-by-2
image, image_reduction catches the IndexError, prints, and returns the
same ordinary result as a call with no bad pixels — no error propagates to
the caller. -/
theorem image_reduction_out_of_range_cex :
    image_reduction [[1, 2], [3, 4]] none (some [(5, 5)]) =
      image_reduction [[1, 2], [3, 4]] none none := by rfl

/-- C2 amended: every function that detects a violated precondition raises
— except image_reduction, which catches the IndexError of out-of-range
bad-pixel coordinates and continues: its result only depends on the
in-range (valid) bad pixels, the invalid ones are skipped rather than
propagated as errors. -/
theorem image_reduction_skips_invalid_pixels (im : List (List ℚ))
    (roi : Option (ℤ × ℤ × ℤ × ℤ)) (bp : List (ℤ × ℤ)) :
    image_reduction im roi (some bp) =
      image_reduction im roi (some (bp.filter (pixValid im))) := by
  have key : ∀ (l : List (ℤ × ℤ)) (a : List (List ℚ)),
      l.foldl setPixZero a = (l.filter (pixValid a)).foldl setPixZero a := by
    intro l
    induction l with
    | nil => intro a; rfl
    | cons p t ih =>
        intro a
        by_cases hv : pixValid a p
        · have hfilter : (p :: t).filter (pixValid a) =
              p :: t.filter (pixValid a) := by
            simp [List.filter_cons, hv]
          have hstable : t.filter (pixValid (setPixZero a p)) =
              t.filter (pixValid a) := by
            apply List.filter_congr
            intro q _
            unfold pixValid
            rw [resolvePix_setPixZero]
          rw [hfilter, List.foldl_cons, List.foldl_cons, ih, hstable]
        · have hskip : setPixZero a p = a := by
            unfold pixValid at hv
            cases hres : resolvePix a p with
            | none => exact setPixZero_of_none a p hres
            | some rc => rw [hres] at hv; simp at hv
          have hfilter : (p :: t).filter (pixValid a) =
              t.filter (pixValid a) := by
            simp [List.filter_cons, hv]
          rw [hfilter, List.foldl_cons, hskip, ih]
  unfold image_reduction
  dsimp only
  rw [key bp im]

theorem image_reduction_mutation_exact_witness :
    getPix (image_reduction [[1, 2], [3, 4]] none (some [(0, 1), (7, 7)])).1
        0 1 =
      if ([((0 : ℤ), (1 : ℤ)), (7, 7)].any
            (fun p => hitsPix [[1, 2], [3, 4]] p 0 1)) then 0
      else getPix [[1, 2], [3, 4]] 0 1 :=
  image_reduction_mutation_exact [[1, 2], [3, 4]] none [(0, 1), (7, 7)] 0 1

theorem getD_zero_mem {α : Type} (l : List α) (d : α) (h : l ≠ []) :
    l.getD 0 d ∈ l := by
  cases l with
  | nil => exact absurd rfl h
  | cons a t => simp

theorem getLastD_mem {α : Type} (l : List α) (d : α) (h : l ≠ []) :
    l.getLastD d ∈ l := by
  cases l with
  | nil => exact absurd rfl h
  | cons a t =>
      rw [List.getLastD_cons]
      exact List.getLastD_mem_cons t a

theorem integrate_core_ok (x1 counts x_min x_max : List ℚ) (v : ℚ)
    (h : integrate_core x1 counts x_min x_max = .ok v) :
    2 ≤ x1.length ∧
    x_min.length = x_max.length ∧
    (∀ p ∈ x_min.zip x_max, p.1 < p.2) ∧
    (∀ b ∈ x_min, x1.getD 0 0 < b) ∧
    (∀ w ∈ x_max, w < x1.getLastD 0) := by
  unfold integrate_core at h
  split_ifs at h with h1 h2 h3 h4 h5 h6
  simp only [List.any_eq_true, decide_eq_true_eq, not_exists, not_and,
    not_le] at h4 h5 h6
  exact ⟨by omega, by omega, h4, h5, h6⟩

theorem integrate_core_total (x1 counts x_min x_max : List ℚ)
    (h2 : 2 ≤ x1.length) :
    (∃ v, integrate_core x1 counts x_min x_max = .ok v) ∨
    integrate_core x1 counts x_min x_max = .error .valueError := by
  unfold integrate_core
  split_ifs with h1
  · omega
  all_goals first
    | exact Or.inr rfl
    | exact Or.inl ⟨_, rfl⟩

/-- C6 counterexample: with a one-element x_value_array and the invalid
bounds x_min = [3] ≥ x_max = [2], integrate_ROI raises IndexError (at
x_value_array[1] in the spacing check), not the ValueError the claim
promises. -/
theorem integrate_ROI_short_x_cex :
    integrate_ROI [5] [1] [3] [2] ≠ .error .valueError ∧
    integrate_ROI [5] [1] [3] [2] = .error .indexError := by
  constructor
  · decide
  · decide

/-- C6 amended: for every call to integrate_ROI whose x_value_array has at
least two entries and whose integration bounds are invalid — x_min and
x_max of different lengths, some x_min entry ≥ its x_max entry, some x_min
entry not above the lowest x value, or some x_max entry not below the
highest x value — a ValueError is raised and no integral is returned (with
fewer than two x values an IndexError is raised instead). -/
theorem integrate_ROI_invalid_bounds (x counts x_min x_max : List ℚ)
    (hx : 2 ≤ x.length)
    (hinv : x_min.length ≠ x_max.length ∨
      (∃ p ∈ x_min.zip x_max, p.2 ≤ p.1) ∨
      (∃ b ∈ x_min, ∀ u ∈ x, b ≤ u) ∨
      (∃ w ∈ x_max, ∀ u ∈ x, u ≤ w)) :
    integrate_ROI x counts x_min x_max = .error .valueError := by
  unfold integrate_ROI
  set x1 := if (npdiff x).all (fun d => decide (0 < d)) then x
            else x.reverse with hx1
  have hlen : x1.length = x.length := by
    rw [hx1]
    split <;> simp
  have hmem : ∀ y ∈ x1, y ∈ x := by
    intro y hy
    rw [hx1] at hy
    revert hy
    split
    · exact id
    · exact fun hy => List.mem_reverse.mp hy
  rcases integrate_core_total x1 counts x_min x_max (by omega) with
    ⟨v, hok⟩ | herr
  · exfalso
    obtain ⟨hc2, hll, hpairs, hmins, hmaxs⟩ :=
      integrate_core_ok x1 counts x_min x_max v hok
    have hne : x1 ≠ [] := by
      intro hh
      rw [hh] at hlen
      simp at hlen
      omega
    have hhead : x1.getD 0 0 ∈ x := hmem _ (getD_zero_mem x1 0 hne)
    have hlast : x1.getLastD 0 ∈ x := hmem _ (getLastD_mem x1 0 hne)
    rcases hinv with h | h | h | h
    · exact h hll
    · obtain ⟨p, hp, hle⟩ := h
      exact absurd hle (not_le.mpr (hpairs p hp))
    · obtain ⟨b, hb, hall⟩ := h
      exact absurd (hall _ hhead) (not_le.mpr (hmins b hb))
    · obtain ⟨w, hw, hall⟩ := h
      exact absurd (hall _ hlast) (not_le.mpr (hmaxs w hw))
  · exact herr

theorem integrate_ROI_invalid_bounds_witness :
    (2 ≤ ([0, 1] : List ℚ).length ∧
      (([3] : List ℚ).length ≠ ([] : List ℚ).length ∨
        (∃ p ∈ ([3] : List ℚ).zip ([] : List ℚ), p.2 ≤ p.1) ∨
        (∃ b ∈ ([3] : List ℚ), ∀ u ∈ ([0, 1] : List ℚ), b ≤ u) ∨
        (∃ w ∈ ([] : List ℚ), ∀ u ∈ ([0, 1] : List ℚ), u ≤ w))) ∧
    integrate_ROI [0, 1] [0, 0] [3] [] = .error .valueError :=
  ⟨⟨by decide, Or.inl (by decide)⟩,
   integrate_ROI_invalid_bounds [0, 1] [0, 0] [3] []
     (by decide) (Or.inl (by decide))⟩

theorem accumFill_apply {α ι : Type} [DecidableEq ι] (binOf : α → Option ι)
    (xw : List (α × ℚ)) (i : ι) :
    accumFill binOf xw i =
      ((xw.filter (fun p => decide (binOf p.1 = some i))).map Prod.snd).sum := by
  have key : ∀ (l : List (α × ℚ)) (g : ι → ℚ),
      l.foldl
        (fun f p =>
          match binOf p.1 with
          | some j => Function.update f j (f j + p.2)
          | none => f) g i =
      g i +
        ((l.filter (fun p => decide (binOf p.1 = some i))).map Prod.snd).sum := by
    intro l
    induction l with
    | nil =>
        intro g
        simp
    | cons p t ih =>
        intro g
        simp only [List.foldl_cons]
        cases hb : binOf p.1 with
        | none =>
            rw [ih]
            simp [List.filter_cons, hb]
        | some j =>
            rw [ih]
            by_cases hj : j = i
            · subst hj
              simp [List.filter_cons, hb, Function.update_same]
              ring
            · simp [List.filter_cons, hb, hj, Function.update_apply,
                Ne.symm hj]
  unfold accumFill
  simpa using key xw (fun _ => 0)

/-- C3: for every bin specification, every sample list, and every weight
list (a scalar weight is the constant list), filling the Histogram
accumulator and reading its values yields exactly the np.histogram /
np.histogram2d counts computed over the accumulator's own bin edges with
the same weights: accumulating weight-by-weight agrees with the reference
per-bin sums in 1-D and in 2-D. -/
theorem histogram_matches_reference :
    (∀ (nbins : Nat) (low high : ℚ) (samples weights : List ℚ),
      histogram_values (histEdges nbins low high) samples weights =
        np_histogram (histEdges nbins low high) samples weights) ∧
    (∀ (nx ny : Nat) (lx hx ly hy : ℚ) (xs ys ws : List ℚ),
      histogram2d_values (histEdges nx lx hx) (histEdges ny ly hy) xs ys ws =
        np_histogram2d (histEdges nx lx hx) (histEdges ny ly hy) xs ys ws) := by
  constructor
  · intro nbins low high samples weights
    unfold histogram_values np_histogram
    apply List.map_congr_left
    intro i _
    exact accumFill_apply (npFindBin (histEdges nbins low high))
      (samples.zip weights) i
  · intro nx ny lx hx ly hy xs ys ws
    unfold histogram2d_values np_histogram2d
    apply List.map_congr_left
    intro i _
    apply List.map_congr_left
    intro j _
    exact accumFill_apply (npFindBin2 (histEdges nx lx hx) (histEdges ny ly hy))
      ((xs.zip ys).zip ws) (i, j)

theorem getD_map_range {β : Type} (n i : Nat) (f : Nat → β) (d : β)
    (h : i < n) : ((List.range n).map f).getD i d = f i := by
  rw [List.getD_eq_getElem?_getD, List.getElem?_map, List.getElem?_range h]
  rfl

theorem bin_edges_to_centers_length (l : List ℚ) :
    (bin_edges_to_centers l).length = l.length - 1 := by
  simp [bin_edges_to_centers]

theorem bin_edges_to_centers_getD (l : List ℚ) (k : Nat)
    (h : k + 1 < l.length) :
    (bin_edges_to_centers l).getD k 0 = (l.getD k 0 + l.getD (k + 1) 0) / 2 := by
  unfold bin_edges_to_centers
  rw [List.getD_eq_getElem?_getD, List.getElem?_zipWith,
    List.getD_eq_getElem?_getD, List.getD_eq_getElem?_getD,
    List.getElem?_tail]
  rw [List.getElem?_eq_getElem (by omega), List.getElem?_eq_getElem h]
  rfl

/-- C10: for every num_times, num_rois, mean_roi with (at least) num_rois
positive leading entries, and max_cts ≥ 1, normalize_bin_edges returns two
(num_times, num_rois)-shaped object arrays where edge cell (i, j) is
arange(max_cts * 2^i) divided by (mean_roi[j] * 2^i), and center cell
(i, j) is the midpoints of its consecutive edges, with exactly one fewer
element. -/
theorem normalize_bin_edges_spec (num_times num_rois : Nat)
    (mean_roi : List ℚ) (max_cts : Nat)
    (hlen : num_rois ≤ mean_roi.length)
    (hpos : ∀ j, j < num_rois → 0 < mean_roi.getD j 0)
    (hcts : 1 ≤ max_cts) :
    (normalize_bin_edges num_times num_rois mean_roi max_cts).1.length =
        num_times ∧
    (normalize_bin_edges num_times num_rois mean_roi max_cts).2.length =
        num_times ∧
    ∀ i, i < num_times → ∀ j, j < num_rois →
      ((normalize_bin_edges num_times num_rois mean_roi max_cts).1.getD
          i []).length = num_rois ∧
      ((normalize_bin_edges num_times num_rois mean_roi max_cts).2.getD
          i []).length = num_rois ∧
      (((normalize_bin_edges num_times num_rois mean_roi max_cts).1.getD
          i []).getD j []).length = max_cts * 2 ^ i ∧
      (∀ k, k < max_cts * 2 ^ i →
        ((((normalize_bin_edges num_times num_rois mean_roi max_cts).1.getD
            i []).getD j []).getD k 0) =
          (k : ℚ) / (mean_roi.getD j 0 * 2 ^ i)) ∧
      ((((normalize_bin_edges num_times num_rois mean_roi max_cts).2.getD
          i []).getD j []).length + 1 =
        (((normalize_bin_edges num_times num_rois mean_roi max_cts).1.getD
          i []).getD j []).length) ∧
      (∀ k, k + 1 < (((normalize_bin_edges num_times num_rois mean_roi
          max_cts).1.getD i []).getD j []).length →
        ((((normalize_bin_edges num_times num_rois mean_roi max_cts).2.getD
            i []).getD j []).getD k 0) =
          (((((normalize_bin_edges num_times num_rois mean_roi
              max_cts).1.getD i []).getD j []).getD k 0) +
           ((((normalize_bin_edges num_times num_rois mean_roi
              max_cts).1.getD i []).getD j []).getD (k + 1) 0)) / 2) := by
  have h1get : ∀ i, i < num_times →
      (normalize_bin_edges num_times num_rois mean_roi max_cts).1.getD i [] =
        (List.range num_rois).map (fun j =>
          (arangeQ (max_cts * 2 ^ i)).map
            (fun v => v / (mean_roi.getD j 0 * 2 ^ i))) := by
    intro i hi
    unfold normalize_bin_edges
    dsimp only
    exact getD_map_range _ _ _ _ hi
  have h2get : ∀ i, i < num_times →
      (normalize_bin_edges num_times num_rois mean_roi max_cts).2.getD i [] =
        ((List.range num_rois).map (fun j =>
          (arangeQ (max_cts * 2 ^ i)).map
            (fun v => v / (mean_roi.getD j 0 * 2 ^ i)))).map
          bin_edges_to_centers := by
    intro i hi
    unfold normalize_bin_edges
    dsimp only
    rw [List.map_map, getD_map_range _ _ _ _ hi]
    rfl
  have hcell : ∀ i j, i < num_times → j < num_rois →
      (((normalize_bin_edges num_times num_rois mean_roi max_cts).1.getD
          i []).getD j []) =
        (arangeQ (max_cts * 2 ^ i)).map
          (fun v => v / (mean_roi.getD j 0 * 2 ^ i)) := by
    intro i j hi hj
    rw [h1get i hi, getD_map_range _ _ _ _ hj]
  have hcenters : ∀ i j, i < num_times → j < num_rois →
      (((normalize_bin_edges num_times num_rois mean_roi max_cts).2.getD
          i []).getD j []) =
        bin_edges_to_centers
          (((normalize_bin_edges num_times num_rois mean_roi max_cts).1.getD
            i []).getD j []) := by
    intro i j hi hj
    rw [h2get i hi, hcell i j hi hj, List.map_map, getD_map_range _ _ _ _ hj]
    rfl
  refine ⟨?_, ?_, ?_⟩
  · unfold normalize_bin_edges
    simp
  · unfold normalize_bin_edges
    simp
  · intro i hi j hj
    have hElen : (((normalize_bin_edges num_times num_rois mean_roi
        max_cts).1.getD i []).getD j []).length = max_cts * 2 ^ i := by
      rw [hcell i j hi hj]
      simp [arangeQ]
    have hpos2 : 1 ≤ max_cts * 2 ^ i :=
      Nat.le_trans hcts (Nat.le_mul_of_pos_right max_cts (Nat.two_pow_pos i))
    refine ⟨?_, ?_, hElen, ?_, ?_, ?_⟩
    · rw [h1get i hi]
      simp
    · rw [h2get i hi]
      simp
    · intro k hk
      rw [hcell i j hi hj]
      unfold arangeQ
      rw [List.map_map, getD_map_range _ _ _ _ hk]
      rfl
    · rw [hcenters i j hi hj, bin_edges_to_centers_length, hElen]
      omega
    · intro k hk
      rw [hcenters i j hi hj, bin_edges_to_centers_getD _ _ hk]

theorem normalize_bin_edges_spec_witness :
    ((1 : Nat) ≤ ([2] : List ℚ).length ∧
      (∀ j, j < 1 → (0 : ℚ) < ([2] : List ℚ).getD j 0) ∧
      (1 : Nat) ≤ 2) ∧
    ((normalize_bin_edges 1 1 [2] 2).1.length = 1 ∧
     (normalize_bin_edges 1 1 [2] 2).2.length = 1 ∧
     ∀ i, i < 1 → ∀ j, j < 1 →
       ((normalize_bin_edges 1 1 [2] 2).1.getD i []).length = 1 ∧
       ((normalize_bin_edges 1 1 [2] 2).2.getD i []).length = 1 ∧
       (((normalize_bin_edges 1 1 [2] 2).1.getD i []).getD j []).length =
         2 * 2 ^ i ∧
       (∀ k, k < 2 * 2 ^ i →
         ((((normalize_bin_edges 1 1 [2] 2).1.getD i []).getD j []).getD
             k 0) = (k : ℚ) / (([2] : List ℚ).getD j 0 * 2 ^ i)) ∧
       ((((normalize_bin_edges 1 1 [2] 2).2.getD i []).getD j []).length +
           1 =
         (((normalize_bin_edges 1 1 [2] 2).1.getD i []).getD j []).length) ∧
       (∀ k, k + 1 <
           (((normalize_bin_edges 1 1 [2] 2).1.getD i []).getD
             j []).length →
         ((((normalize_bin_edges 1 1 [2] 2).2.getD i []).getD j []).getD
             k 0) =
           (((((normalize_bin_edges 1 1 [2] 2).1.getD i []).getD
               j []).getD k 0) +
            ((((normalize_bin_edges 1 1 [2] 2).1.getD i []).getD
               j []).getD (k + 1) 0)) / 2)) :=
  ⟨⟨by decide,
    fun j hj => by
      have hj0 : j = 0 := by omega
      subst hj0
      norm_num,
    by decide⟩,
   normalize_bin_edges_spec 1 1 [2] 2 (by decide)
     (fun j hj => by
       have hj0 : j = 0 := by omega
       subst hj0
       norm_num)
     (by decide)⟩

theorem dims_zip2d {α β γ : Type} (f : α → β → γ) (a : List (List α))
    (b : List (List β)) (h : dims a = dims b) : dims (zip2d f a b) = dims a := by
  induction a generalizing b with
  | nil => simp [zip2d, dims]
  | cons r t ih =>
      cases b with
      | nil => simp [dims] at h
      | cons rb tb =>
          simp only [dims, List.map_cons, List.cons.injEq] at h
          obtain ⟨h1, h2⟩ := h
          simp only [zip2d, dims, List.zipWith_cons_cons, List.map_cons,
            List.cons.injEq]
          constructor
          · rw [List.length_zipWith, h1, Nat.min_self]
          · exact ih tb h2

theorem dims_map_map {α β : Type} (g : α → β) (a : List (List α)) :
    dims (a.map (fun row => row.map g)) = dims a := by
  unfold dims
  rw [List.map_map]
  apply List.map_congr_left
  intro r _
  simp

theorem dims_cdi_step (diff_v : List (List ℚ)) (sw_flag : Bool)
    (threshold : ℚ) (st : List (List (ℚ × ℚ)) × List (List ℚ))
    (h1 : dims st.1 = dims diff_v) (h2 : dims st.2 = dims diff_v) :
    dims (cdi_step diff_v sw_flag threshold st).1 = dims diff_v ∧
    dims (cdi_step diff_v sw_flag threshold st).2 = dims diff_v := by
  have hb : dims (pi_modulus st.1 diff_v) = dims diff_v := by
    unfold pi_modulus
    rw [dims_zip2d _ _ _ h1, h1]
  have hsup : dims (if sw_flag then
      support_update (pi_modulus st.1 diff_v) threshold else st.2) =
      dims diff_v := by
    cases sw_flag with
    | false => simpa using h2
    | true =>
        simp only [if_pos]
        unfold support_update
        rw [dims_map_map, hb]
  constructor
  · unfold cdi_step
    dsimp only
    unfold pi_support
    rw [dims_zip2d]
    · exact hb
    · rw [hb, hsup]
  · unfold cdi_step
    dsimp only
    exact hsup

theorem dims_cdi_loop (diff_v : List (List ℚ)) (sw_flag : Bool)
    (threshold : ℚ) (n : Nat) (st : List (List (ℚ × ℚ)) × List (List ℚ))
    (h1 : dims st.1 = dims diff_v) (h2 : dims st.2 = dims diff_v) :
    dims (cdi_loop diff_v sw_flag threshold n st).1.1 = dims diff_v := by
  induction n generalizing st with
  | zero => exact h1
  | succ m ih =>
      unfold cdi_loop
      dsimp only
      obtain ⟨k1, k2⟩ := dims_cdi_step diff_v sw_flag threshold st h1 h2
      exact ih (cdi_step diff_v sw_flag threshold st) k1 k2

/-- C7: for every diffraction-pattern array, initial phase field and
support of the same shape as the pattern, the reconstruction cdi_recon
returns an output array whose shape (list of row lengths) equals the
shape of the input diffraction-pattern array, for any iteration count,
shrink-wrap flag and threshold. -/
theorem cdi_recon_shape (diff_v : List (List ℚ))
    (init_phase : List (List (ℚ × ℚ))) (sup : List (List ℚ))
    (sw_flag : Bool) (threshold : ℚ) (n : Nat)
    (hp : dims init_phase = dims diff_v) (hs : dims sup = dims diff_v) :
    dims (cdi_recon diff_v init_phase sup sw_flag threshold n).1 =
      dims diff_v := by
  unfold cdi_recon
  dsimp only
  apply dims_cdi_loop
  · exact dims_zip2d _ _ _ hp.symm
  · exact hs

theorem cdi_recon_shape_witness :
    (dims ([[(1, 0)]] : List (List (ℚ × ℚ))) = dims ([[1]] : List (List ℚ)) ∧
      dims ([[1]] : List (List ℚ)) = dims ([[1]] : List (List ℚ))) ∧
    dims (cdi_recon [[1]] [[(1, 0)]] [[1]] true (1/2) 3).1 =
      dims ([[1]] : List (List ℚ)) :=
  ⟨⟨by decide, by decide⟩,
   cdi_recon_shape [[1]] [[(1, 0)]] [[1]] true (1/2) 3 (by decide) (by decide)⟩

/-- C8: for every ROI specification set and detector size, roi_rectangles
returns pixel counts consistent with its own label assignment: the k-th
entry of num_pixels equals the number of pixel_list entries whose
roi_inds label is k+1 (the count of the label k+1 among the returned
labels). -/
theorem roi_rectangles_counts (num_rois : Nat)
    (roi_data : List (ℤ × ℤ × ℤ × ℤ)) (d0 d1 k : Nat) (hk : k < num_rois) :
    (roi_rectangles num_rois roi_data d0 d1).2.1.getD k 0 =
      (roi_rectangles num_rois roi_data d0 d1).1.count (k + 1) := by
  unfold roi_rectangles roiLabeledPixels
  dsimp only
  rw [getD_map_range _ _ _ _ hk]
  rw [List.count_eq_countP, List.count_eq_countP, List.countP_map,
    List.countP_filter]
  have hmapsnd :
      (((List.range d0).map fun r => (List.range d1).map fun c =>
          roiLabelAt roi_data r c).flatten) =
      ((((List.range d0).map fun r => (List.range d1).map fun c =>
          (r * d1 + c, roiLabelAt roi_data r c)).flatten).map Prod.snd) := by
    rw [List.map_flatten, List.map_map]
    congr 1
    apply List.map_congr_left
    intro r _
    dsimp only [Function.comp]
    rw [List.map_map]
    rfl
  rw [hmapsnd, List.countP_map]
  apply List.countP_congr
  intro p hp
  simp only [Function.comp_apply, beq_iff_eq, Bool.and_eq_true,
    decide_eq_true_eq, ne_eq]
  omega

theorem roi_rectangles_counts_witness :
    (0 : Nat) < 2 ∧
    (roi_rectangles 2 [(0, 0, 1, 2), (1, 1, 1, 1)] 2 2).2.1.getD 0 0 =
      (roi_rectangles 2 [(0, 0, 1, 2), (1, 1, 1, 1)] 2 2).1.count 1 :=
  ⟨by decide,
   roi_rectangles_counts 2 [(0, 0, 1, 2), (1, 1, 1, 1)] 2 2 0 (by decide)⟩
